import Mathlib

/-!
Shallow embedding of the capture-encode-mux pipeline of
`src/cmds/screenrecord/screenrecord.cpp`, centred on `runEncoder`
(lines 374-653).  The two encoders, the muxer and the clock are external
collaborators; one loop iteration is driven by an `IterIn` record carrying
the results those collaborators return during that iteration (the
`dequeueOutputBuffer` outcome for each stream, the clock readings, and the
points at which the SIGINT/SIGHUP handler may set `gStopRequested`).
The muxer is observed through ghost logs in the state: the list of
`writeSampleData` calls, the number of `start()` calls, and the `addTrack`
counter handing out track indices.  `releaseOutputBuffer` calls are
likewise logged per stream.
-/

namespace Screenrecord

/-- Metadata of one output buffer as returned by
`MediaCodec::dequeueOutputBuffer` in the `NO_ERROR` case, together with the
results the collaborators return for this buffer: `writeOk` is the result
of `muxer->writeSampleData`, `releaseOk` the result of
`releaseOutputBuffer`.  `isConfig` and `isEos` model
`BUFFER_FLAG_CODECCONFIG` and `BUFFER_FLAG_EOS` in `flags`. -/
structure BufData where
  idx : Nat
  size : Nat
  pts : Int
  isConfig : Bool
  isEos : Bool
  writeOk : Bool
  releaseOk : Bool
  deriving DecidableEq

/-- Result of one `dequeueOutputBuffer` call: the cases of the `switch (err)`
in `runEncoder`.  `fmt` carries the result `muxer->start()` would return if
it is invoked on this event; `bufsChanged` carries the result of the
`getOutputBuffers` refresh. -/
inductive OutEvt where
  | buf (b : BufData)
  | again
  | fmt (startOk : Bool)
  | bufsChanged (ok : Bool)
  | fatal
  deriving DecidableEq

/-- Environment of one loop iteration.  `sigAtHead` and `sigMid` say whether
the signal handler sets `gStopRequested` just before the `while` condition,
respectively between the head checks and the output processing.
`headNowNsec` is `systemTime(CLOCK_MONOTONIC)` at the deadline check and
`vidNowUsec` is `systemTime(SYSTEM_TIME_MONOTONIC)/1000` as read when a
zero video timestamp is substituted.  `audioEvt` is consulted only when
audio recording is enabled. -/
structure IterIn where
  sigAtHead : Bool
  headNowNsec : Int
  sigMid : Bool
  videoEvt : OutEvt
  vidNowUsec : Int
  audioEvt : OutEvt
  deriving DecidableEq

/-- Session configuration: `gRecordAudio`, `startWhenNsec` and
`endWhenNsec` from `runEncoder`. -/
structure Cfg where
  recordAudio : Bool
  startWhenNsec : Int
  endWhenNsec : Int
  deriving DecidableEq

/-- Ghost record of one `muxer->writeSampleData` call.  `startCountAtWrite`
is the number of `muxer->start()` calls that had been made when this write
was issued (an observation field, not program state). -/
structure WriteRec where
  track : Int
  pts : Int
  isConfig : Bool
  isEos : Bool
  isAudio : Bool
  startCountAtWrite : Nat
  deriving DecidableEq

/-- The mutable state of `runEncoder`: the local variables
`videoTrackIdx`, `audioTrackIdx`, `tracksAdded`, `lastAudioPtsUs`, the
global `gStopRequested`, plus ghost observations of the muxer
(`nextTrack` = `addTrack` counter, `startCount` = number of `start()`
calls, `writes` = `writeSampleData` log) and of the two encoders
(`vidReleases` / `audReleases` = logs of `releaseOutputBuffer` calls). -/
structure LoopState where
  videoTrackIdx : Int
  audioTrackIdx : Int
  tracksAdded : Nat
  lastAudioPtsUs : Int
  stopRequested : Bool
  nextTrack : Nat
  startCount : Nat
  writes : List WriteRec
  vidReleases : List Nat
  audReleases : List Nat
  deriving DecidableEq

/-- Initial state at the top of the encoder loop: both track indices are
`-1`, no tracks registered, `lastAudioPtsUs = 0`, and `gStopRequested` has
just been cleared (line 439). -/
def initState : LoopState :=
  { videoTrackIdx := -1, audioTrackIdx := -1, tracksAdded := 0,
    lastAudioPtsUs := 0, stopRequested := false, nextTrack := 0,
    startCount := 0, writes := [], vidReleases := [], audReleases := [] }

/-- Ways the pipeline aborts with an error (`return err` paths of
`runEncoder`); `assertFailed` models the `CHECK(...TrackIdx != -1)`
assertion aborts. -/
inductive PipeErr where
  | assertFailed
  | writeFailed
  | releaseFailed
  | startFailed
  | getBuffersFailed
  | dequeueFailed
  deriving DecidableEq

/-- Audio timestamp reconciliation, lines 575-577: clamp a negative
reported timestamp to zero, and replace a timestamp still below the last
emitted audio timestamp by `lastAudioPtsUs + 23219`. -/
def reconcileAudio (pts last : Int) : Int :=
  let p := if pts < 0 then 0 else pts
  if p < last then last + 23219 else p

/-- Video timestamp substitution, lines 489-491: a zero reported timestamp
is replaced by the current monotonic clock reading in microseconds. -/
def videoWritePts (b : BufData) (nowUsec : Int) : Int :=
  if b.pts = 0 then nowUsec else b.pts

/-- The expected track count, `gRecordAudio ? 2 : 1` (line 527). -/
def expectedTracks (cfg : Cfg) : Nat :=
  if cfg.recordAudio then 2 else 1

/-- Tail of the video `NO_ERROR` case, lines 505-515: release the output
buffer back to the video encoder, and on `BUFFER_FLAG_EOS` clear
`gStopRequested` and keep looping. -/
def finishVideoBuf (s : LoopState) (b : BufData) : Except PipeErr LoopState :=
  if b.releaseOk then
    if b.isEos then
      .ok { s with vidReleases := s.vidReleases ++ [b.idx], stopRequested := false }
    else
      .ok { s with vidReleases := s.vidReleases ++ [b.idx] }
  else .error .releaseFailed

/-- Tail of the audio `NO_ERROR` case, lines 591-601: release the output
buffer back to the audio encoder, and on `BUFFER_FLAG_EOS` clear
`gStopRequested` and keep looping. -/
def finishAudioBuf (s : LoopState) (b : BufData) : Except PipeErr LoopState :=
  if b.releaseOk then
    if b.isEos then
      .ok { s with audReleases := s.audReleases ++ [b.idx], stopRequested := false }
    else
      .ok { s with audReleases := s.audReleases ++ [b.idx] }
  else .error .releaseFailed

/-- The video `switch (err)` of `runEncoder`, lines 473-554.  A
codec-config buffer has its size zeroed and is never written; a data
buffer requires `CHECK(videoTrackIdx != -1)`, gets its timestamp through
`videoWritePts`, and is forwarded to the muxer before being released; a
format change registers the track via `addTrack` and starts the muxer
once `tracksAdded` reaches `gRecordAudio ? 2 : 1`. -/
def processVideo (cfg : Cfg) (s : LoopState) (e : OutEvt) (nowUsec : Int) :
    Except PipeErr LoopState :=
  match e with
  | .buf b =>
    if (if b.isConfig then 0 else b.size) = 0 then
      finishVideoBuf s b
    else if s.videoTrackIdx = -1 then
      .error .assertFailed
    else if b.writeOk then
      finishVideoBuf
        { s with writes := s.writes ++
            [{ track := s.videoTrackIdx, pts := videoWritePts b nowUsec,
               isConfig := b.isConfig, isEos := b.isEos, isAudio := false,
               startCountAtWrite := s.startCount }] } b
    else .error .writeFailed
  | .again => .ok s
  | .fmt startOk =>
    if expectedTracks cfg ≤ s.tracksAdded + 1 then
      if startOk then
        .ok { s with videoTrackIdx := (s.nextTrack : Int),
                     nextTrack := s.nextTrack + 1,
                     tracksAdded := s.tracksAdded + 1,
                     startCount := s.startCount + 1 }
      else .error .startFailed
    else
      .ok { s with videoTrackIdx := (s.nextTrack : Int),
                   nextTrack := s.nextTrack + 1,
                   tracksAdded := s.tracksAdded + 1 }
  | .bufsChanged ok => if ok then .ok s else .error .getBuffersFailed
  | .fatal => .error .dequeueFailed

/-- The audio `switch (err)` of `runEncoder`, lines 561-640.  Identical in
shape to the video one, with the audio reconciliation of lines 575-578
(`lastAudioPtsUs` is updated to the emitted value) and the hard-coded
`tracksAdded >= 2` start threshold of line 613. -/
def processAudio (s : LoopState) (e : OutEvt) : Except PipeErr LoopState :=
  match e with
  | .buf b =>
    if (if b.isConfig then 0 else b.size) = 0 then
      finishAudioBuf s b
    else if s.audioTrackIdx = -1 then
      .error .assertFailed
    else if b.writeOk then
      finishAudioBuf
        { s with lastAudioPtsUs := reconcileAudio b.pts s.lastAudioPtsUs,
                 writes := s.writes ++
            [{ track := s.audioTrackIdx,
               pts := reconcileAudio b.pts s.lastAudioPtsUs,
               isConfig := b.isConfig, isEos := b.isEos, isAudio := true,
               startCountAtWrite := s.startCount }] } b
    else .error .writeFailed
  | .again => .ok s
  | .fmt startOk =>
    if 2 ≤ s.tracksAdded + 1 then
      if startOk then
        .ok { s with audioTrackIdx := (s.nextTrack : Int),
                     nextTrack := s.nextTrack + 1,
                     tracksAdded := s.tracksAdded + 1,
                     startCount := s.startCount + 1 }
      else .error .startFailed
    else
      .ok { s with audioTrackIdx := (s.nextTrack : Int),
                   nextTrack := s.nextTrack + 1,
                   tracksAdded := s.tracksAdded + 1 }
  | .bufsChanged ok => if ok then .ok s else .error .getBuffersFailed
  | .fatal => .error .dequeueFailed

/-- One iteration body after the head checks: the signal may set
`gStopRequested` (`sigMid`), then the video stream is processed, then --
only when `gRecordAudio` -- the audio stream.  (The audio input feeding of
lines 455-467 touches none of the modelled state and is elided.) -/
def stepIter (cfg : Cfg) (s : LoopState) (it : IterIn) : Except PipeErr LoopState :=
  let s1 := { s with stopRequested := s.stopRequested || it.sigMid }
  match processVideo cfg s1 it.videoEvt it.vidNowUsec with
  | .error e => .error e
  | .ok s2 => if cfg.recordAudio then processAudio s2 it.audioEvt else .ok s2

/-- Outcome of running the loop over a finite observation window:
`finished` is the graceful exit through the `while` condition or the
deadline `break` (a `NO_ERROR` return); `aborted` is a `return err` (or a
`CHECK` abort); `ranOut` means the window ended with the loop still
running. -/
inductive RunResult where
  | finished (s : LoopState)
  | aborted (e : PipeErr)
  | ranOut (s : LoopState)
  deriving DecidableEq

/-- The `while (!gStopRequested)` loop of `runEncoder`, lines 442-642:
per iteration, the signal may set the flag, the flag is checked, then the
deadline (`systemTime > endWhenNsec`, line 447), then the iteration body
runs. -/
def runLoop (cfg : Cfg) (s : LoopState) : List IterIn → RunResult
  | [] => .ranOut s
  | it :: rest =>
    let s1 := { s with stopRequested := s.stopRequested || it.sigAtHead }
    if s1.stopRequested then .finished s1
    else if cfg.endWhenNsec < it.headNowNsec then .finished s1
    else
      match stepIter cfg s1 it with
      | .error e => .aborted e
      | .ok s2 => runLoop cfg s2 rest

/-- `runEncoder` from the top of its loop, starting at `initState`. -/
def runEncoder (cfg : Cfg) (tr : List IterIn) : RunResult :=
  runLoop cfg initState tr

/-- The loop state carried by a non-aborted outcome. -/
def resultState : RunResult → Option LoopState
  | .finished s => some s
  | .ranOut s => some s
  | .aborted _ => none

/-- Whether the outcome is the graceful `finished` exit. -/
def RunResult.isFinished : RunResult → Bool
  | .finished _ => true
  | _ => false

/-- Whether a dequeue event is `INFO_FORMAT_CHANGED`. -/
def OutEvt.isFmt : OutEvt → Bool
  | .fmt _ => true
  | _ => false

/-- Number of video `INFO_FORMAT_CHANGED` events in a window. -/
def vidFmtCount (tr : List IterIn) : Nat :=
  (tr.filter (fun it => it.videoEvt.isFmt)).length

/-- Number of audio `INFO_FORMAT_CHANGED` events in a window. -/
def audFmtCount (tr : List IterIn) : Nat :=
  (tr.filter (fun it => it.audioEvt.isFmt)).length

/-- Whether a track index has been assigned (`!= -1`), counted as 0 or 1. -/
def trackReg (i : Int) : Nat :=
  if i = -1 then 0 else 1

/-- Number of registered tracks according to the two indices. -/
def regCount (s : LoopState) : Nat :=
  trackReg s.videoTrackIdx + trackReg s.audioTrackIdx

/-- The timestamps of the audio samples forwarded to the muxer, in write
order. -/
def audioPtsList (s : LoopState) : List Int :=
  (s.writes.filter (fun w => w.isAudio)).map (fun w => w.pts)

/-- State facts maintained by every successful iteration: track indices
are `-1` or assigned (non-negative); every logged write went to an
assigned track and was never a codec-config buffer; in a video-only
session a registered video track implies the muxer was started, so every
write happened after `start()`; the audio timestamps forwarded so far are
non-decreasing and bounded by `lastAudioPtsUs`. -/
def Inv (cfg : Cfg) (s : LoopState) : Prop :=
  (s.videoTrackIdx = -1 ∨ 0 ≤ s.videoTrackIdx) ∧
  (s.audioTrackIdx = -1 ∨ 0 ≤ s.audioTrackIdx) ∧
  (∀ w ∈ s.writes, 0 ≤ w.track ∧ w.isConfig = false) ∧
  (cfg.recordAudio = false → s.videoTrackIdx ≠ -1 → 0 < s.startCount) ∧
  (cfg.recordAudio = false → ∀ w ∈ s.writes, 0 < w.startCountAtWrite) ∧
  List.Chain' (· ≤ ·) (audioPtsList s) ∧
  (∀ p ∈ audioPtsList s, p ≤ s.lastAudioPtsUs)

/-- A video-only configuration used for concrete runs. -/
def cfgVid : Cfg :=
  { recordAudio := false, startWhenNsec := 0, endWhenNsec := 1000000000 }

/-- An audio+video configuration used for concrete runs. -/
def cfgAV : Cfg :=
  { recordAudio := true, startWhenNsec := 0, endWhenNsec := 1000000000 }

/-- An iteration in which nothing happens on either stream. -/
def quietIter : IterIn :=
  { sigAtHead := false, headNowNsec := 0, sigMid := false,
    videoEvt := .again, vidNowUsec := 0, audioEvt := .again }

/-- A plain data buffer carrying a given timestamp. -/
def dataBuf (pts : Int) : BufData :=
  { idx := 0, size := 1, pts := pts, isConfig := false, isEos := false,
    writeOk := true, releaseOk := true }

/-- A zero-sized buffer carrying only the end-of-stream flag. -/
def eosBuf : BufData :=
  { idx := 1, size := 0, pts := 0, isConfig := false, isEos := true,
    writeOk := true, releaseOk := true }

/-- A data buffer whose reported timestamp is zero. -/
def zeroPtsBuf : BufData :=
  { idx := 2, size := 1, pts := 0, isConfig := false, isEos := false,
    writeOk := true, releaseOk := true }

/-- Audio+video window: video format change first, then a video data
buffer while the audio track is still unregistered. -/
def trC1 : List IterIn :=
  [ { quietIter with videoEvt := .fmt true },
    { quietIter with videoEvt := .buf (dataBuf 100) } ]

/-- Audio+video window: both formats become known, then three audio data
buffers with reported timestamps 100, 90, 50. -/
def trC4 : List IterIn :=
  [ { quietIter with videoEvt := .fmt true, audioEvt := .fmt true },
    { quietIter with audioEvt := .buf (dataBuf 100) },
    { quietIter with audioEvt := .buf (dataBuf 90) },
    { quietIter with audioEvt := .buf (dataBuf 50) } ]

/-- Video-only window: registration, then an end-of-stream buffer in the
iteration during which the signal handler fires, then a data buffer. -/
def trC5 : List IterIn :=
  [ { quietIter with videoEvt := .fmt true },
    { quietIter with sigMid := true, videoEvt := .buf eosBuf },
    { quietIter with videoEvt := .buf (dataBuf 5) } ]

/-- Video-only window in which the video encoder reports a second format
change. -/
def trC7 : List IterIn :=
  [ { quietIter with videoEvt := .fmt true },
    { quietIter with videoEvt := .fmt true } ]

/-- Video-only window: one format change, then one data buffer. -/
def trV : List IterIn :=
  [ { quietIter with videoEvt := .fmt true },
    { quietIter with videoEvt := .buf (dataBuf 5) } ]

/-- The write produced by running `trV`. -/
def wV : WriteRec :=
  { track := 0, pts := 5, isConfig := false, isEos := false,
    isAudio := false, startCountAtWrite := 1 }

/-- The state after running `trV` in the video-only configuration. -/
def sV : LoopState :=
  { videoTrackIdx := 0, audioTrackIdx := -1, tracksAdded := 1,
    lastAudioPtsUs := 0, stopRequested := false, nextTrack := 1,
    startCount := 1, writes := [wV], vidReleases := [0], audReleases := [] }

/-- An audio write with a given timestamp, as produced by running `trC4`. -/
def wAud (p : Int) : WriteRec :=
  { track := 1, pts := p, isConfig := false, isEos := false,
    isAudio := true, startCountAtWrite := 1 }

/-- The state after running `trC4` in the audio+video configuration. -/
def sAV : LoopState :=
  { videoTrackIdx := 0, audioTrackIdx := 1, tracksAdded := 2,
    lastAudioPtsUs := 46538, stopRequested := false, nextTrack := 2,
    startCount := 1, writes := [wAud 100, wAud 23319, wAud 46538],
    vidReleases := [], audReleases := [0, 0, 0] }

/-- A state in which the stop flag has just been raised. -/
def sStop : LoopState :=
  { initState with stopRequested := true }

/-- An iteration whose video stream yields the `dataBuf 5` data buffer. -/
def iterBuf5 : IterIn :=
  { quietIter with videoEvt := .buf (dataBuf 5) }

/-- The state after processing `iterBuf5` from `sV`. -/
def sV5 : LoopState :=
  { sV with writes := [wV, wV], vidReleases := [0, 0] }

/-- An iteration whose head deadline check fires. -/
def iterDead : IterIn :=
  { quietIter with headNowNsec := 2000000000 }

/-- The state after processing `zeroPtsBuf` at clock reading 77 from `sV`. -/
def sV77 : LoopState :=
  { sV with
    writes := [wV, { track := 0, pts := 77, isConfig := false, isEos := false,
                     isAudio := false, startCountAtWrite := 1 }],
    vidReleases := [0, 2] }

/-- The reconciled audio timestamp never falls below the last emitted one. -/
theorem reconcileAudio_ge (p last : Int) : last ≤ reconcileAudio p last := by
  have h : reconcileAudio p last =
      if (if p < 0 then 0 else p) < last then last + 23219
      else if p < 0 then 0 else p := rfl
  rw [h]
  split_ifs <;> omega

/-- Appending an upper bound to a non-decreasing list keeps it
non-decreasing. -/
theorem chain_le_append {l : List Int} {a : Int} (h : List.Chain' (· ≤ ·) l)
    (ha : ∀ x ∈ l, x ≤ a) : List.Chain' (· ≤ ·) (l ++ [a]) := by
  refine List.Chain'.append h (List.chain'_singleton a) ?_
  intro x hx y hy
  simp only [List.head?_cons, Option.mem_def, Option.some.injEq] at hy
  subst hy
  obtain ⟨hne, rfl⟩ := List.mem_getLast?_eq_getLast hx
  exact ha _ (List.getLast_mem hne)

/-- A successful video `NO_ERROR` case leaves the registration counters and
the audio state alone and releases exactly this buffer. -/
theorem processVideo_buf_ok {cfg : Cfg} {s : LoopState} {b : BufData} {now : Int}
    {s' : LoopState} (h : processVideo cfg s (.buf b) now = .ok s') :
    s'.videoTrackIdx = s.videoTrackIdx ∧ s'.audioTrackIdx = s.audioTrackIdx ∧
    s'.tracksAdded = s.tracksAdded ∧ s'.nextTrack = s.nextTrack ∧
    s'.startCount = s.startCount ∧ s'.lastAudioPtsUs = s.lastAudioPtsUs ∧
    s'.audReleases = s.audReleases ∧
    s'.vidReleases = s.vidReleases ++ [b.idx] := by
  simp only [processVideo, finishVideoBuf] at h
  split_ifs at h <;> first
    | exact Except.noConfusion h
    | (injection h with h; subst h; exact ⟨rfl, rfl, rfl, rfl, rfl, rfl, rfl, rfl⟩)

/-- A successful video format change assigns the next muxer track index,
bumps `tracksAdded`, starts the muxer exactly when the threshold is
reached, and touches nothing else. -/
theorem processVideo_fmt_ok {cfg : Cfg} {s : LoopState} {ok : Bool} {now : Int}
    {s' : LoopState} (h : processVideo cfg s (.fmt ok) now = .ok s') :
    s'.videoTrackIdx = (s.nextTrack : Int) ∧ s'.audioTrackIdx = s.audioTrackIdx ∧
    s'.tracksAdded = s.tracksAdded + 1 ∧ s'.nextTrack = s.nextTrack + 1 ∧
    s'.startCount = (if expectedTracks cfg ≤ s.tracksAdded + 1 then s.startCount + 1
                     else s.startCount) ∧
    s'.writes = s.writes ∧ s'.lastAudioPtsUs = s.lastAudioPtsUs ∧
    s'.vidReleases = s.vidReleases ∧ s'.audReleases = s.audReleases := by
  simp only [processVideo] at h
  split_ifs at h with h1 h2 <;> first
    | exact Except.noConfusion h
    | (injection h with h; subst h; simp [h1])

/-- A successful video event that is neither a data buffer nor a format
change leaves the state unchanged. -/
theorem processVideo_other_ok {cfg : Cfg} {s : LoopState} {e : OutEvt} {now : Int}
    {s' : LoopState} (h : processVideo cfg s e now = .ok s')
    (h1 : ∀ b, e ≠ .buf b) (h2 : ∀ ok, e ≠ .fmt ok) : s' = s := by
  cases e with
  | buf b => exact absurd rfl (h1 b)
  | fmt ok => exact absurd rfl (h2 ok)
  | again => injection h with h; subst h; rfl
  | bufsChanged ok =>
      simp only [processVideo] at h
      split_ifs at h <;> first
        | exact Except.noConfusion h
        | (injection h with h; subst h; rfl)
  | fatal => exact Except.noConfusion h

/-- A successful audio `NO_ERROR` case leaves the registration counters and
the video state alone and releases exactly this buffer. -/
theorem processAudio_buf_ok {s : LoopState} {b : BufData} {s' : LoopState}
    (h : processAudio s (.buf b) = .ok s') :
    s'.videoTrackIdx = s.videoTrackIdx ∧ s'.audioTrackIdx = s.audioTrackIdx ∧
    s'.tracksAdded = s.tracksAdded ∧ s'.nextTrack = s.nextTrack ∧
    s'.startCount = s.startCount ∧ s'.vidReleases = s.vidReleases ∧
    s'.audReleases = s.audReleases ++ [b.idx] := by
  simp only [processAudio, finishAudioBuf] at h
  split_ifs at h <;> first
    | exact Except.noConfusion h
    | (injection h with h; subst h; exact ⟨rfl, rfl, rfl, rfl, rfl, rfl, rfl⟩)

/-- A successful audio format change assigns the next muxer track index,
bumps `tracksAdded`, starts the muxer exactly when two tracks exist, and
touches nothing else. -/
theorem processAudio_fmt_ok {s : LoopState} {ok : Bool} {s' : LoopState}
    (h : processAudio s (.fmt ok) = .ok s') :
    s'.audioTrackIdx = (s.nextTrack : Int) ∧ s'.videoTrackIdx = s.videoTrackIdx ∧
    s'.tracksAdded = s.tracksAdded + 1 ∧ s'.nextTrack = s.nextTrack + 1 ∧
    s'.startCount = (if 2 ≤ s.tracksAdded + 1 then s.startCount + 1 else s.startCount) ∧
    s'.writes = s.writes ∧ s'.lastAudioPtsUs = s.lastAudioPtsUs ∧
    s'.vidReleases = s.vidReleases ∧ s'.audReleases = s.audReleases := by
  simp only [processAudio] at h
  split_ifs at h with h1 h2 <;> first
    | exact Except.noConfusion h
    | (injection h with h; subst h; simp [h1])

/-- A successful audio event that is neither a data buffer nor a format
change leaves the state unchanged. -/
theorem processAudio_other_ok {s : LoopState} {e : OutEvt} {s' : LoopState}
    (h : processAudio s e = .ok s')
    (h1 : ∀ b, e ≠ .buf b) (h2 : ∀ ok, e ≠ .fmt ok) : s' = s := by
  cases e with
  | buf b => exact absurd rfl (h1 b)
  | fmt ok => exact absurd rfl (h2 ok)
  | again => injection h with h; subst h; rfl
  | bufsChanged ok =>
      simp only [processAudio] at h
      split_ifs at h <;> first
        | exact Except.noConfusion h
        | (injection h with h; subst h; rfl)
  | fatal => exact Except.noConfusion h

/-- In a successful video `NO_ERROR` case the write log either stays
unchanged (config or empty buffer) or gains exactly the forwarded video
sample, which requires a registered track and excludes config buffers. -/
theorem processVideo_buf_write {cfg : Cfg} {s : LoopState} {b : BufData}
    {now : Int} {s' : LoopState} (h : processVideo cfg s (.buf b) now = .ok s') :
    s'.writes = s.writes ∨
    (s.videoTrackIdx ≠ -1 ∧ b.isConfig = false ∧
     s'.writes = s.writes ++
       [{ track := s.videoTrackIdx, pts := videoWritePts b now,
          isConfig := b.isConfig, isEos := b.isEos, isAudio := false,
          startCountAtWrite := s.startCount }]) := by
  simp only [processVideo, finishVideoBuf] at h
  split_ifs at h <;> first
    | exact Except.noConfusion h
    | (injection h with h; subst h; left; rfl)
    | (injection h with h; subst h;
       refine Or.inr ⟨by assumption, ?_, rfl⟩
       cases hb : b.isConfig
       · rfl
       · simp_all)

/-- In a successful audio `NO_ERROR` case either nothing is written and
`lastAudioPtsUs` is unchanged, or exactly the reconciled audio sample is
forwarded and `lastAudioPtsUs` is updated to its timestamp. -/
theorem processAudio_buf_write {s : LoopState} {b : BufData} {s' : LoopState}
    (h : processAudio s (.buf b) = .ok s') :
    (s'.writes = s.writes ∧ s'.lastAudioPtsUs = s.lastAudioPtsUs) ∨
    (s.audioTrackIdx ≠ -1 ∧ b.isConfig = false ∧
     s'.lastAudioPtsUs = reconcileAudio b.pts s.lastAudioPtsUs ∧
     s'.writes = s.writes ++
       [{ track := s.audioTrackIdx, pts := reconcileAudio b.pts s.lastAudioPtsUs,
          isConfig := b.isConfig, isEos := b.isEos, isAudio := true,
          startCountAtWrite := s.startCount }]) := by
  simp only [processAudio, finishAudioBuf] at h
  split_ifs at h <;> first
    | exact Except.noConfusion h
    | (injection h with h; subst h; exact Or.inl ⟨rfl, rfl⟩)
    | (injection h with h; subst h;
       refine Or.inr ⟨by assumption, ?_, rfl, rfl⟩
       cases hb : b.isConfig
       · rfl
       · simp_all)

/-- The invariant only looks at the track indices, the write log, the
start count and the last audio timestamp, so it transports along equality
of those fields. -/
theorem Inv_eqFields {cfg : Cfg} {s t : LoopState} (hI : Inv cfg s)
    (h1 : t.videoTrackIdx = s.videoTrackIdx)
    (h2 : t.audioTrackIdx = s.audioTrackIdx)
    (h3 : t.writes = s.writes) (h4 : t.startCount = s.startCount)
    (h5 : t.lastAudioPtsUs = s.lastAudioPtsUs) : Inv cfg t := by
  unfold Inv audioPtsList
  rw [h1, h2, h3, h4, h5]
  exact hI

/-- A successful video event preserves the master invariant. -/
theorem processVideo_inv {cfg : Cfg} {s : LoopState} {e : OutEvt} {now : Int}
    {s' : LoopState} (hI : Inv cfg s) (h : processVideo cfg s e now = .ok s') :
    Inv cfg s' := by
  cases e with
  | again =>
      simp only [processVideo] at h
      injection h with h
      exact h ▸ hI
  | bufsChanged ok =>
      simp only [processVideo] at h
      split_ifs at h
      injection h with h
      exact h ▸ hI
  | fatal => exact Except.noConfusion h
  | fmt ok =>
      obtain ⟨e1, e2, e3, e4, e5, e6, e7, e8, e9⟩ := processVideo_fmt_ok h
      obtain ⟨hv, ha, hw, hstart, hsw, hch, hbd⟩ := hI
      have hA : audioPtsList s' = audioPtsList s := by
        unfold audioPtsList; rw [e6]
      refine ⟨?_, ?_, ?_, ?_, ?_, ?_, ?_⟩
      · right; rw [e1]; exact Int.natCast_nonneg _
      · rw [e2]; exact ha
      · rw [e6]; exact hw
      · intro hra _
        rw [e5]
        have hex : expectedTracks cfg = 1 := by simp [expectedTracks, hra]
        rw [hex, if_pos (by omega)]
        omega
      · intro hra w hw'
        rw [e6] at hw'
        exact hsw hra w hw'
      · rw [hA]; exact hch
      · rw [hA, e7]; exact hbd
  | buf b =>
      obtain ⟨e1, e2, e3, e4, e5, e6, e7, e8⟩ := processVideo_buf_ok h
      rcases processVideo_buf_write h with heq | ⟨hne, hcf, heq⟩
      · exact Inv_eqFields hI e1 e2 heq e5 e6
      · obtain ⟨hv, ha, hw, hstart, hsw, hch, hbd⟩ := hI
        have hA : audioPtsList s' = audioPtsList s := by
          unfold audioPtsList; rw [heq]; simp
        refine ⟨?_, ?_, ?_, ?_, ?_, ?_, ?_⟩
        · rw [e1]; exact hv
        · rw [e2]; exact ha
        · intro w hw'
          rw [heq] at hw'
          rcases List.mem_append.mp hw' with h' | h'
          · exact hw w h'
          · simp only [List.mem_singleton] at h'
            subst h'
            exact ⟨hv.resolve_left hne, hcf⟩
        · intro hra _
          rw [e5]
          exact hstart hra hne
        · intro hra w hw'
          rw [heq] at hw'
          rcases List.mem_append.mp hw' with h' | h'
          · exact hsw hra w h'
          · simp only [List.mem_singleton] at h'
            subst h'
            exact hstart hra hne
        · rw [hA]; exact hch
        · rw [hA, e6]; exact hbd

/-- A successful audio event (only reachable when audio recording is
enabled) preserves the master invariant. -/
theorem processAudio_inv {cfg : Cfg} {s : LoopState} {e : OutEvt}
    {s' : LoopState} (hrec : cfg.recordAudio = true) (hI : Inv cfg s)
    (h : processAudio s e = .ok s') : Inv cfg s' := by
  cases e with
  | again =>
      simp only [processAudio] at h
      injection h with h
      exact h ▸ hI
  | bufsChanged ok =>
      simp only [processAudio] at h
      split_ifs at h
      injection h with h
      exact h ▸ hI
  | fatal => exact Except.noConfusion h
  | fmt ok =>
      obtain ⟨e1, e2, e3, e4, e5, e6, e7, e8, e9⟩ := processAudio_fmt_ok h
      obtain ⟨hv, ha, hw, hstart, hsw, hch, hbd⟩ := hI
      have hA : audioPtsList s' = audioPtsList s := by
        unfold audioPtsList; rw [e6]
      refine ⟨?_, ?_, ?_, ?_, ?_, ?_, ?_⟩
      · rw [e2]; exact hv
      · right; rw [e1]; exact Int.natCast_nonneg _
      · rw [e6]; exact hw
      · intro hra
        rw [hra] at hrec
        exact Bool.noConfusion hrec
      · intro hra
        rw [hra] at hrec
        exact Bool.noConfusion hrec
      · rw [hA]; exact hch
      · rw [hA, e7]; exact hbd
  | buf b =>
      obtain ⟨e1, e2, e3, e4, e5, e6, e7⟩ := processAudio_buf_ok h
      rcases processAudio_buf_write h with ⟨hwz, hlz⟩ | ⟨hne, hcf, hl, hwz⟩
      · exact Inv_eqFields hI e1 e2 hwz e5 hlz
      · obtain ⟨hv, ha, hw, hstart, hsw, hch, hbd⟩ := hI
        have hA : audioPtsList s' =
            audioPtsList s ++ [reconcileAudio b.pts s.lastAudioPtsUs] := by
          unfold audioPtsList; rw [hwz]; simp
        refine ⟨?_, ?_, ?_, ?_, ?_, ?_, ?_⟩
        · rw [e1]; exact hv
        · rw [e2]; exact ha
        · intro w hw'
          rw [hwz] at hw'
          rcases List.mem_append.mp hw' with h' | h'
          · exact hw w h'
          · simp only [List.mem_singleton] at h'
            subst h'
            exact ⟨ha.resolve_left hne, hcf⟩
        · intro hra
          rw [hra] at hrec
          exact Bool.noConfusion hrec
        · intro hra
          rw [hra] at hrec
          exact Bool.noConfusion hrec
        · rw [hA]
          exact chain_le_append hch
            (fun x hx => le_trans (hbd x hx) (reconcileAudio_ge _ _))
        · rw [hA, hl]
          intro p hp
          rcases List.mem_append.mp hp with h' | h'
          · exact le_trans (hbd p h') (reconcileAudio_ge _ _)
          · simp only [List.mem_singleton] at h'
            subst h'
            exact le_refl _

/-- One successful loop-body iteration preserves the master invariant. -/
theorem stepIter_inv {cfg : Cfg} {s : LoopState} {it : IterIn} {s' : LoopState}
    (hI : Inv cfg s) (h : stepIter cfg s it = .ok s') : Inv cfg s' := by
  have h1 : (match processVideo cfg { s with stopRequested := s.stopRequested || it.sigMid }
        it.videoEvt it.vidNowUsec with
      | Except.error e => (Except.error e : Except PipeErr LoopState)
      | Except.ok s2 =>
          if cfg.recordAudio = true then processAudio s2 it.audioEvt
          else Except.ok s2) = Except.ok s' := h
  have hI1 : Inv cfg { s with stopRequested := s.stopRequested || it.sigMid } := hI
  rcases hpv : processVideo cfg { s with stopRequested := s.stopRequested || it.sigMid }
      it.videoEvt it.vidNowUsec with e | s2
  · rw [hpv] at h1
    have h2 : (Except.error e : Except PipeErr LoopState) = Except.ok s' := h1
    exact Except.noConfusion h2
  · rw [hpv] at h1
    have h2 : (if cfg.recordAudio = true then processAudio s2 it.audioEvt
        else Except.ok s2) = Except.ok s' := h1
    have hI2 : Inv cfg s2 := processVideo_inv hI1 hpv
    cases hra : cfg.recordAudio
    · rw [hra] at h2
      simp only [Bool.false_eq_true, if_false] at h2
      injection h2 with h2
      exact h2 ▸ hI2
    · rw [hra] at h2
      simp only [if_true] at h2
      exact processAudio_inv hra hI2 h2

/-- Running the loop from an invariant state over any window keeps the
invariant in any non-aborted outcome. -/
theorem runLoop_inv (cfg : Cfg) :
    ∀ (tr : List IterIn) (s s' : LoopState), Inv cfg s →
      resultState (runLoop cfg s tr) = some s' → Inv cfg s'
  | [], s, s', hI, hr => by
      simp only [runLoop, resultState, Option.some.injEq] at hr
      exact hr ▸ hI
  | it :: rest, s, s', hI, hr => by
      simp only [runLoop] at hr
      split at hr
      · simp only [resultState, Option.some.injEq] at hr
        exact hr ▸
          (show Inv cfg { s with stopRequested := s.stopRequested || it.sigAtHead } from hI)
      · split at hr
        · simp only [resultState, Option.some.injEq] at hr
          exact hr ▸
            (show Inv cfg { s with stopRequested := s.stopRequested || it.sigAtHead } from hI)
        · split at hr
          · simp only [resultState] at hr
            exact Option.noConfusion hr
          · rename_i s2 heq
            exact runLoop_inv cfg rest s2 s'
              (stepIter_inv
                (show Inv cfg { s with stopRequested := s.stopRequested || it.sigAtHead } from hI)
                heq) hr

/-- The initial loop state satisfies the master invariant. -/
theorem initState_inv (cfg : Cfg) : Inv cfg initState := by
  unfold Inv initState audioPtsList
  simp

/-- A video data buffer (non-config, non-empty) that is processed
successfully adds exactly one sample, timestamped by `videoWritePts`, to
the write log. -/
theorem processVideo_data_ok {cfg : Cfg} {s : LoopState} {b : BufData}
    {now : Int} {s' : LoopState} (hcf : b.isConfig = false) (hsz : b.size ≠ 0)
    (h : processVideo cfg s (.buf b) now = .ok s') :
    s'.writes.map (fun w => w.pts) =
      s.writes.map (fun w => w.pts) ++ [videoWritePts b now] := by
  simp only [processVideo, finishVideoBuf, hcf, Bool.false_eq_true, if_false,
    if_neg hsz] at h
  split_ifs at h <;> first
    | exact Except.noConfusion h
    | (injection h with h; subst h; simp)

/-- An audio data buffer (non-config, non-empty) that is processed
successfully updates `lastAudioPtsUs` to the reconciled timestamp and
appends exactly that timestamp to the forwarded audio sequence. -/
theorem processAudio_data_ok {s : LoopState} {b : BufData} {s' : LoopState}
    (hcf : b.isConfig = false) (hsz : b.size ≠ 0)
    (h : processAudio s (.buf b) = .ok s') :
    s'.lastAudioPtsUs = reconcileAudio b.pts s.lastAudioPtsUs ∧
    audioPtsList s' = audioPtsList s ++ [reconcileAudio b.pts s.lastAudioPtsUs] := by
  simp only [processAudio, finishAudioBuf, hcf, Bool.false_eq_true, if_false,
    if_neg hsz] at h
  split_ifs at h <;> first
    | exact Except.noConfusion h
    | (injection h with h; subst h;
       exact ⟨rfl, by unfold audioPtsList; simp⟩)

/-- A successful audio event never touches the video track index or the
video release log. -/
theorem processAudio_ok_vid {s : LoopState} {e : OutEvt} {s' : LoopState}
    (h : processAudio s e = .ok s') :
    s'.videoTrackIdx = s.videoTrackIdx ∧ s'.vidReleases = s.vidReleases := by
  cases e with
  | buf b =>
      obtain ⟨x, -, -, -, -, y, -⟩ := processAudio_buf_ok h
      exact ⟨x, y⟩
  | fmt ok =>
      obtain ⟨-, x, -, -, -, -, -, y, -⟩ := processAudio_fmt_ok h
      exact ⟨x, y⟩
  | again =>
      have hs := processAudio_other_ok h (fun b hh => OutEvt.noConfusion hh)
        (fun ok hh => OutEvt.noConfusion hh)
      subst hs; exact ⟨rfl, rfl⟩
  | bufsChanged ok =>
      have hs := processAudio_other_ok h (fun b hh => OutEvt.noConfusion hh)
        (fun ok hh => OutEvt.noConfusion hh)
      subst hs; exact ⟨rfl, rfl⟩
  | fatal => exact Except.noConfusion h

/-- A successful video event never touches the audio track index or the
audio release log. -/
theorem processVideo_ok_aud {cfg : Cfg} {s : LoopState} {e : OutEvt}
    {now : Int} {s' : LoopState} (h : processVideo cfg s e now = .ok s') :
    s'.audioTrackIdx = s.audioTrackIdx ∧ s'.audReleases = s.audReleases := by
  cases e with
  | buf b =>
      obtain ⟨-, x, -, -, -, -, y, -⟩ := processVideo_buf_ok h
      exact ⟨x, y⟩
  | fmt ok =>
      obtain ⟨-, x, -, -, -, -, -, -, y⟩ := processVideo_fmt_ok h
      exact ⟨x, y⟩
  | again =>
      have hs := processVideo_other_ok h (fun b hh => OutEvt.noConfusion hh)
        (fun ok hh => OutEvt.noConfusion hh)
      subst hs; exact ⟨rfl, rfl⟩
  | bufsChanged ok =>
      have hs := processVideo_other_ok h (fun b hh => OutEvt.noConfusion hh)
        (fun ok hh => OutEvt.noConfusion hh)
      subst hs; exact ⟨rfl, rfl⟩
  | fatal => exact Except.noConfusion h

/-- A natural-number cast is a registered track index. -/
theorem trackReg_natCast (n : Nat) : trackReg (n : Int) = 1 := by
  unfold trackReg
  rw [if_neg]
  omega

/-- An unregistered count means the index is the sentinel `-1`. -/
theorem trackReg_eq_zero {i : Int} (h : trackReg i = 0) : i = -1 := by
  unfold trackReg at h
  split_ifs at h with hc
  exact hc

/-- A track registration count is zero or one. -/
theorem trackReg_le_one (i : Int) : trackReg i ≤ 1 := by
  unfold trackReg
  split_ifs <;> omega

/-- Registration bookkeeping tied to the muxer observations: `tracksAdded`
counts the assigned indices, audio stays unregistered in a video-only
session, and the number of `start()` calls is one exactly from the moment
`tracksAdded` reaches the expected count. -/
def RegInv (cfg : Cfg) (s : LoopState) : Prop :=
  s.tracksAdded = regCount s ∧
  (cfg.recordAudio = false → s.audioTrackIdx = -1) ∧
  s.startCount = (if expectedTracks cfg ≤ s.tracksAdded then 1 else 0)

/-- Splitting the video format-change count of a window at its head. -/
theorem vidFmtCount_cons (it : IterIn) (rest : List IterIn) :
    vidFmtCount (it :: rest) =
      (if it.videoEvt.isFmt = true then 1 else 0) + vidFmtCount rest := by
  unfold vidFmtCount
  rw [List.filter_cons]
  split_ifs <;> simp <;> omega

/-- Splitting the audio format-change count of a window at its head. -/
theorem audFmtCount_cons (it : IterIn) (rest : List IterIn) :
    audFmtCount (it :: rest) =
      (if it.audioEvt.isFmt = true then 1 else 0) + audFmtCount rest := by
  unfold audFmtCount
  rw [List.filter_cons]
  split_ifs <;> simp <;> omega

/-- Effect of one successful video event on the registration bookkeeping,
under the encoder contract that this stream reports at most one format
change in total. -/
theorem processVideo_reg {cfg : Cfg} {s : LoopState} {e : OutEvt} {now : Int}
    {s' : LoopState} (h : processVideo cfg s e now = .ok s')
    (hreg : RegInv cfg s)
    (hv : trackReg s.videoTrackIdx + (if e.isFmt = true then 1 else 0) ≤ 1) :
    RegInv cfg s' ∧
    trackReg s'.videoTrackIdx =
      trackReg s.videoTrackIdx + (if e.isFmt = true then 1 else 0) ∧
    s'.audioTrackIdx = s.audioTrackIdx := by
  obtain ⟨ht, hax, hs⟩ := hreg
  cases e with
  | fmt ok =>
      obtain ⟨e1, e2, e3, e4, e5, -, -, -, -⟩ := processVideo_fmt_ok h
      have hfmt : OutEvt.isFmt (.fmt ok) = true := rfl
      rw [hfmt, if_pos rfl] at hv ⊢
      have hv0 : trackReg s.videoTrackIdx = 0 := by omega
      have hvm1 : s.videoTrackIdx = -1 := trackReg_eq_zero hv0
      have hr1 : trackReg s'.videoTrackIdx = 1 := by
        rw [e1]; exact trackReg_natCast _
      have haud : trackReg s.audioTrackIdx ≤ 1 := trackReg_le_one _
      refine ⟨⟨?_, ?_, ?_⟩, by omega, e2⟩
      · unfold regCount
        rw [hr1, e2, e3, ht]
        unfold regCount
        omega
      · intro hra
        rw [e2]; exact hax hra
      · rw [e5, e3]
        have htA : s.tracksAdded = trackReg s.audioTrackIdx := by
          rw [ht]; unfold regCount; omega
        cases hra : cfg.recordAudio
        · have hea : expectedTracks cfg = 1 := by unfold expectedTracks; rw [hra]; rfl
          have ha0 : trackReg s.audioTrackIdx = 0 := by
            rw [hax hra]; rfl
          rw [hea]
          rw [hea] at hs
          split_ifs at hs ⊢ <;> omega
        · have hea : expectedTracks cfg = 2 := by unfold expectedTracks; rw [hra]; rfl
          rw [hea]
          rw [hea] at hs
          split_ifs at hs ⊢ <;> omega
  | buf b =>
      obtain ⟨e1, e2, e3, e4, e5, -, -, -⟩ := processVideo_buf_ok h
      have hfmt : OutEvt.isFmt (.buf b) = false := rfl
      rw [hfmt] at hv ⊢
      simp only [Bool.false_eq_true, if_false]
      refine ⟨⟨?_, ?_, ?_⟩, by rw [e1]; omega, e2⟩
      · unfold regCount; rw [e1, e2, e3, ht]; rfl
      · intro hra; rw [e2]; exact hax hra
      · rw [e5, e3]; exact hs
  | again =>
      have hseq := processVideo_other_ok h (fun b hh => OutEvt.noConfusion hh)
        (fun ok hh => OutEvt.noConfusion hh)
      subst hseq
      exact ⟨⟨ht, hax, hs⟩, by simp [OutEvt.isFmt], rfl⟩
  | bufsChanged ok =>
      have hseq := processVideo_other_ok h (fun b hh => OutEvt.noConfusion hh)
        (fun ok hh => OutEvt.noConfusion hh)
      subst hseq
      exact ⟨⟨ht, hax, hs⟩, by simp [OutEvt.isFmt], rfl⟩
  | fatal => exact Except.noConfusion h

/-- Effect of one successful audio event on the registration bookkeeping
(audio events only happen when audio recording is enabled), under the
encoder contract that this stream reports at most one format change. -/
theorem processAudio_reg {cfg : Cfg} {s : LoopState} {e : OutEvt}
    {s' : LoopState} (hrec : cfg.recordAudio = true)
    (h : processAudio s e = .ok s') (hreg : RegInv cfg s)
    (ha : trackReg s.audioTrackIdx + (if e.isFmt = true then 1 else 0) ≤ 1) :
    RegInv cfg s' ∧
    trackReg s'.audioTrackIdx =
      trackReg s.audioTrackIdx + (if e.isFmt = true then 1 else 0) ∧
    s'.videoTrackIdx = s.videoTrackIdx := by
  obtain ⟨ht, hax, hs⟩ := hreg
  have hea : expectedTracks cfg = 2 := by unfold expectedTracks; rw [hrec]; rfl
  cases e with
  | fmt ok =>
      obtain ⟨e1, e2, e3, e4, e5, -, -, -, -⟩ := processAudio_fmt_ok h
      have hfmt : OutEvt.isFmt (.fmt ok) = true := rfl
      rw [hfmt, if_pos rfl] at ha ⊢
      have ha0 : trackReg s.audioTrackIdx = 0 := by omega
      have ham1 : s.audioTrackIdx = -1 := trackReg_eq_zero ha0
      have hr1 : trackReg s'.audioTrackIdx = 1 := by
        rw [e1]; exact trackReg_natCast _
      have hvid : trackReg s.videoTrackIdx ≤ 1 := trackReg_le_one _
      have htA : s.tracksAdded = trackReg s.videoTrackIdx := by
        rw [ht]; unfold regCount; omega
      refine ⟨⟨?_, ?_, ?_⟩, by omega, e2⟩
      · unfold regCount
        rw [hr1, e2, e3, ht]
        unfold regCount
        omega
      · intro hra
        rw [hra] at hrec
        exact Bool.noConfusion hrec
      · rw [e5, e3, hea]
        rw [hea] at hs
        split_ifs at hs ⊢ <;> omega
  | buf b =>
      obtain ⟨e1, e2, e3, e4, e5, -, -⟩ := processAudio_buf_ok h
      have hfmt : OutEvt.isFmt (.buf b) = false := rfl
      rw [hfmt] at ha ⊢
      simp only [Bool.false_eq_true, if_false]
      refine ⟨⟨?_, ?_, ?_⟩, by rw [e2]; omega, e1⟩
      · unfold regCount; rw [e1, e2, e3, ht]; rfl
      · intro hra
        rw [hra] at hrec
        exact Bool.noConfusion hrec
      · rw [e5, e3]; exact hs
  | again =>
      have hseq := processAudio_other_ok h (fun b hh => OutEvt.noConfusion hh)
        (fun ok hh => OutEvt.noConfusion hh)
      subst hseq
      exact ⟨⟨ht, hax, hs⟩, by simp [OutEvt.isFmt], rfl⟩
  | bufsChanged ok =>
      have hseq := processAudio_other_ok h (fun b hh => OutEvt.noConfusion hh)
        (fun ok hh => OutEvt.noConfusion hh)
      subst hseq
      exact ⟨⟨ht, hax, hs⟩, by simp [OutEvt.isFmt], rfl⟩
  | fatal => exact Except.noConfusion h

/-- The registration bookkeeping transports along equality of the fields
it mentions. -/
theorem RegInv_eqFields {cfg : Cfg} {s t : LoopState} (hI : RegInv cfg s)
    (h1 : t.videoTrackIdx = s.videoTrackIdx)
    (h2 : t.audioTrackIdx = s.audioTrackIdx)
    (h3 : t.tracksAdded = s.tracksAdded) (h4 : t.startCount = s.startCount) :
    RegInv cfg t := by
  unfold RegInv regCount
  rw [h1, h2, h3, h4]
  exact hI

/-- One successful loop-body iteration preserves the registration
bookkeeping, under the per-iteration format-change budgets. -/
theorem stepIter_reg {cfg : Cfg} {s : LoopState} {it : IterIn} {s' : LoopState}
    (h : stepIter cfg s it = .ok s') (hreg : RegInv cfg s)
    (hv : trackReg s.videoTrackIdx + (if it.videoEvt.isFmt = true then 1 else 0) ≤ 1)
    (ha : cfg.recordAudio = true →
      trackReg s.audioTrackIdx + (if it.audioEvt.isFmt = true then 1 else 0) ≤ 1) :
    RegInv cfg s' ∧
    trackReg s'.videoTrackIdx ≤
      trackReg s.videoTrackIdx + (if it.videoEvt.isFmt = true then 1 else 0) ∧
    trackReg s'.audioTrackIdx ≤
      trackReg s.audioTrackIdx + (if it.audioEvt.isFmt = true then 1 else 0) := by
  have h1 : (match processVideo cfg { s with stopRequested := s.stopRequested || it.sigMid }
        it.videoEvt it.vidNowUsec with
      | Except.error e => (Except.error e : Except PipeErr LoopState)
      | Except.ok s2 =>
          if cfg.recordAudio = true then processAudio s2 it.audioEvt
          else Except.ok s2) = Except.ok s' := h
  have hreg1 : RegInv cfg { s with stopRequested := s.stopRequested || it.sigMid } := hreg
  rcases hpv : processVideo cfg { s with stopRequested := s.stopRequested || it.sigMid }
      it.videoEvt it.vidNowUsec with e | s2
  · rw [hpv] at h1
    exact Except.noConfusion (show (Except.error e : Except PipeErr LoopState) = Except.ok s' from h1)
  · rw [hpv] at h1
    have h2 : (if cfg.recordAudio = true then processAudio s2 it.audioEvt
        else Except.ok s2) = Except.ok s' := h1
    obtain ⟨hreg2, hvr, hax⟩ := processVideo_reg hpv hreg1 hv
    have hp1 : ({ s with stopRequested := s.stopRequested || it.sigMid } : LoopState).videoTrackIdx
        = s.videoTrackIdx := rfl
    have hp2 : ({ s with stopRequested := s.stopRequested || it.sigMid } : LoopState).audioTrackIdx
        = s.audioTrackIdx := rfl
    rw [hp1] at hvr
    rw [hp2] at hax
    cases hra : cfg.recordAudio
    · rw [hra] at h2
      simp only [Bool.false_eq_true, if_false] at h2
      injection h2 with h2
      subst h2
      refine ⟨hreg2, by omega, ?_⟩
      rw [hax]
      omega
    · rw [hra] at h2
      simp only [if_true] at h2
      have ha2 : trackReg s2.audioTrackIdx +
          (if it.audioEvt.isFmt = true then 1 else 0) ≤ 1 := by
        rw [hax]
        exact ha hra
      obtain ⟨hreg3, har, hvx⟩ := processAudio_reg hra h2 hreg2 ha2
      refine ⟨hreg3, ?_, ?_⟩
      · rw [hvx]; omega
      · rw [har, hax]

/-- Running the loop from a bookkeeping-sound state keeps the bookkeeping
sound in any non-aborted outcome, when each stream reports at most as many
format changes as its remaining budget allows. -/
theorem runLoop_reg (cfg : Cfg) :
    ∀ (tr : List IterIn) (s s' : LoopState), RegInv cfg s →
      trackReg s.videoTrackIdx + vidFmtCount tr ≤ 1 →
      (cfg.recordAudio = true → trackReg s.audioTrackIdx + audFmtCount tr ≤ 1) →
      resultState (runLoop cfg s tr) = some s' → RegInv cfg s'
  | [], s, s', hreg, _, _, hr => by
      simp only [runLoop, resultState, Option.some.injEq] at hr
      exact hr ▸ hreg
  | it :: rest, s, s', hreg, hv, ha, hr => by
      simp only [runLoop] at hr
      split at hr
      · simp only [resultState, Option.some.injEq] at hr
        exact hr ▸
          (show RegInv cfg { s with stopRequested := s.stopRequested || it.sigAtHead } from hreg)
      · split at hr
        · simp only [resultState, Option.some.injEq] at hr
          exact hr ▸
            (show RegInv cfg { s with stopRequested := s.stopRequested || it.sigAtHead } from hreg)
        · split at hr
          · simp only [resultState] at hr
            exact Option.noConfusion hr
          · rename_i s2 heq
            rw [vidFmtCount_cons] at hv
            rw [audFmtCount_cons] at ha
            have hv1 : trackReg s.videoTrackIdx +
                (if it.videoEvt.isFmt = true then 1 else 0) ≤ 1 := by omega
            have ha1 : cfg.recordAudio = true →
                trackReg s.audioTrackIdx +
                  (if it.audioEvt.isFmt = true then 1 else 0) ≤ 1 := by
              intro hra
              have := ha hra
              omega
            obtain ⟨hreg2, hvr, har⟩ := stepIter_reg heq
              (show RegInv cfg { s with stopRequested := s.stopRequested || it.sigAtHead } from hreg)
              hv1 (fun hra => ha1 hra)
            have hp1 : ({ s with stopRequested := s.stopRequested || it.sigAtHead } : LoopState).videoTrackIdx
                = s.videoTrackIdx := rfl
            have hp2 : ({ s with stopRequested := s.stopRequested || it.sigAtHead } : LoopState).audioTrackIdx
                = s.audioTrackIdx := rfl
            rw [hp1] at hvr
            rw [hp2] at har
            refine runLoop_reg cfg rest s2 s' hreg2 (by omega) ?_ hr
            intro hra
            have := ha hra
            omega

/-- C1 counterexample: in an audio+video session where the video format
becomes known first, a video data buffer is passed to `writeSampleData`
before `muxer->start()` has been called: the only logged write happened
with zero prior `start()` calls, and `start()` is still uncalled at the
end of the window. -/
theorem c1_counterexample :
    (resultState (runEncoder cfgAV trC1)).map
      (fun s => (s.writes.map (fun w => w.startCountAtWrite), s.startCount)) =
      some ([0], 0) := by decide

/-- C1 (amended): every sample passed to `writeSampleData` goes to a track
already registered for that stream (its index is not `-1`), and in a
video-only session every sample is written only after `muxer->start()`;
in an audio+video session a sample whose own track is registered can be
written before `start()` while the other track is still unknown. -/
theorem writes_require_registration (cfg : Cfg) (tr : List IterIn)
    (s : LoopState) (w : WriteRec)
    (hr : resultState (runEncoder cfg tr) = some s) (hw : w ∈ s.writes) :
    0 ≤ w.track ∧ (cfg.recordAudio = false → 0 < w.startCountAtWrite) := by
  obtain ⟨-, -, hwr, -, hsw, -, -⟩ :=
    runLoop_inv cfg tr initState s (initState_inv cfg) hr
  exact ⟨(hwr w hw).1, fun hra => hsw hra w hw⟩

/-- C1 witness: the amended statement at the write of the concrete
video-only run `trV`. -/
theorem writes_require_registration_witness :
    (0 : Int) ≤ wV.track ∧ 0 < wV.startCountAtWrite :=
  ⟨(writes_require_registration cfgVid trV sV wV (by decide) (by decide)).1,
   (writes_require_registration cfgVid trV sV wV (by decide) (by decide)).2 rfl⟩

/-- C2: when each encoder reports at most one format change (the encoder
contract), `muxer->start()` is called at most once over the whole session,
it has been called exactly when the number of registered tracks equals the
expected count (1 without audio, 2 with audio), and the start count is at
every non-aborted point determined by whether `tracksAdded` has reached
that threshold -- so the single call happens at the registration that
reaches it, whichever stream's format becomes known first. -/
theorem muxer_start_exactly_once (cfg : Cfg) (tr : List IterIn)
    (s : LoopState) (hv : vidFmtCount tr ≤ 1) (ha : audFmtCount tr ≤ 1)
    (hr : resultState (runEncoder cfg tr) = some s) :
    s.startCount ≤ 1 ∧
    (s.startCount = 1 ↔ s.tracksAdded = expectedTracks cfg) ∧
    s.startCount = (if expectedTracks cfg ≤ s.tracksAdded then 1 else 0) := by
  have hreg0 : RegInv cfg initState := by
    refine ⟨by unfold regCount trackReg initState; simp, fun _ => rfl, ?_⟩
    unfold expectedTracks initState
    split_ifs <;> simp_all
  have hfin : RegInv cfg s := by
    refine runLoop_reg cfg tr initState s hreg0 ?_ ?_ hr
    · have h0 : trackReg initState.videoTrackIdx = 0 := rfl
      omega
    · intro _
      have h0 : trackReg initState.audioTrackIdx = 0 := rfl
      omega
  obtain ⟨ht, hax, hs⟩ := hfin
  have hv1 : trackReg s.videoTrackIdx ≤ 1 := trackReg_le_one _
  have ha1 : trackReg s.audioTrackIdx ≤ 1 := trackReg_le_one _
  have htA : s.tracksAdded = trackReg s.videoTrackIdx + trackReg s.audioTrackIdx := ht
  cases hra : cfg.recordAudio
  · have hea : expectedTracks cfg = 1 := by unfold expectedTracks; rw [hra]; rfl
    have ha0 : trackReg s.audioTrackIdx = 0 := by rw [hax hra]; rfl
    rw [hea]
    rw [hea] at hs
    refine ⟨?_, ?_, hs⟩
    · split_ifs at hs <;> omega
    · split_ifs at hs <;> (constructor <;> intro <;> omega)
  · have hea : expectedTracks cfg = 2 := by unfold expectedTracks; rw [hra]; rfl
    rw [hea]
    rw [hea] at hs
    refine ⟨?_, ?_, hs⟩
    · split_ifs at hs <;> omega
    · split_ifs at hs <;> (constructor <;> intro <;> omega)

/-- C2 witness: the statement at the concrete video-only run `trV`. -/
theorem muxer_start_exactly_once_witness :
    sV.startCount ≤ 1 ∧
    (sV.startCount = 1 ↔ sV.tracksAdded = expectedTracks cfgVid) ∧
    sV.startCount = (if expectedTracks cfgVid ≤ sV.tracksAdded then 1 else 0) :=
  muxer_start_exactly_once cfgVid trV sV (by decide) (by decide) (by decide)

/-- C3: for every session and every sequence of encoder events -- with
audio timestamps zero, negative or decreasing -- the audio timestamps
forwarded to the muxer form a non-decreasing sequence. -/
theorem audio_pts_monotone (cfg : Cfg) (tr : List IterIn) (s : LoopState)
    (hr : resultState (runEncoder cfg tr) = some s) :
    List.Chain' (fun a b => a ≤ b) (audioPtsList s) :=
  (runLoop_inv cfg tr initState s (initState_inv cfg) hr).2.2.2.2.2.1

/-- C3 witness: the forwarded audio sequence of the concrete run `trC4`
(reported timestamps 100, 90, 50) is non-decreasing. -/
theorem audio_pts_monotone_witness :
    List.Chain' (fun a b => a ≤ b) (audioPtsList sAV) :=
  audio_pts_monotone cfgAV trC4 sAV (by decide)

/-- C4: the audio reconciler clamps a negative reported timestamp to zero,
replaces a reported timestamp below the last emitted one by
`last + 23219`, passes other timestamps through, updates the last-emitted
value to every emitted timestamp, and reconciles the reported sequence
[100, 90, 50] to [100, 100+23219, (100+23219)+23219]. -/
theorem audio_reconciler_exact :
    (∀ p last : Int, p < 0 →
        reconcileAudio p last = if 0 < last then last + 23219 else 0) ∧
    (∀ p last : Int, 0 ≤ p → p < last →
        reconcileAudio p last = last + 23219) ∧
    (∀ p last : Int, 0 ≤ p → last ≤ p → reconcileAudio p last = p) ∧
    (∀ (s : LoopState) (b : BufData) (s' : LoopState), b.isConfig = false →
        b.size ≠ 0 → processAudio s (.buf b) = .ok s' →
        s'.lastAudioPtsUs = reconcileAudio b.pts s.lastAudioPtsUs ∧
        audioPtsList s' =
          audioPtsList s ++ [reconcileAudio b.pts s.lastAudioPtsUs]) ∧
    (resultState (runEncoder cfgAV trC4)).map audioPtsList =
      some [100, 100 + 23219, (100 + 23219) + 23219] := by
  refine ⟨?_, ?_, ?_, ?_, by decide⟩
  · intro p last hp
    have hd : reconcileAudio p last =
        if (if p < 0 then 0 else p) < last then last + 23219
        else if p < 0 then 0 else p := rfl
    rw [hd]
    split_ifs <;> omega
  · intro p last hp hlt
    have hd : reconcileAudio p last =
        if (if p < 0 then 0 else p) < last then last + 23219
        else if p < 0 then 0 else p := rfl
    rw [hd]
    split_ifs <;> omega
  · intro p last hp hle
    have hd : reconcileAudio p last =
        if (if p < 0 then 0 else p) < last then last + 23219
        else if p < 0 then 0 else p := rfl
    rw [hd]
    split_ifs <;> omega
  · intro s b s' hcf hsz h
    exact processAudio_data_ok hcf hsz h

/-- C4 witness: the replace-below-last rule at the scenario's second
buffer (reported 90 after emitting 100). -/
theorem audio_reconciler_exact_witness :
    reconcileAudio 90 100 = 100 + 23219 :=
  audio_reconciler_exact.2.1 90 100 (by decide) (by decide)

/-- C5 counterexample: the stop flag is raised mid-iteration (second
window entry has `sigMid`), but the end-of-stream buffer processed in
that same iteration clears it again: the loop does not exit (the outcome
is not `finished`), and a further `writeSampleData` call is issued in the
following iteration. -/
theorem c5_counterexample :
    (runEncoder cfgVid trC5).isFinished = false ∧
    (resultState (runEncoder cfgVid trC5)).map
      (fun s => s.writes.map (fun w => w.pts)) = some [5] ∧
    trC5.map (fun it => it.sigMid) = [false, true, false] := by decide

/-- C5 (amended): if the stop flag is set and still set when the loop next
evaluates its `while` condition (an end-of-stream buffer in between clears
it, and the remainder of the iteration in which it was set may still issue
writes), the loop exits right at that check: the outcome is `finished`
with the state unchanged -- a `NO_ERROR` return, so cancellation is not an
error, no further `writeSampleData` call is issued, and the caller then
finalizes the muxer on the partial data. -/
theorem stop_flag_exits_loop (cfg : Cfg) (s : LoopState) (it : IterIn)
    (rest : List IterIn) (h : s.stopRequested = true) :
    runLoop cfg s (it :: rest) = .finished s := by
  cases s
  simp_all [runLoop]

/-- C5 witness: the amended statement at a concrete stopped state. -/
theorem stop_flag_exits_loop_witness :
    runLoop cfgVid sStop [quietIter] = .finished sStop :=
  stop_flag_exits_loop cfgVid sStop quietIter [] rfl

/-- C6: an end-of-stream flag never terminates the loop by itself: a
graceful `finished` outcome only arises at the head check, with the stop
flag observed true or the deadline exceeded at some iteration of the
window; and successfully processing an end-of-stream buffer on either
stream leaves the stop flag cleared, so the loop keeps iterating. -/
theorem finished_only_by_stop_or_deadline :
    (∀ (cfg : Cfg) (s : LoopState) (tr : List IterIn) (s' : LoopState),
        runLoop cfg s tr = .finished s' →
        s'.stopRequested = true ∨
          tr.any (fun it => decide (cfg.endWhenNsec < it.headNowNsec)) = true) ∧
    (∀ (cfg : Cfg) (s : LoopState) (b : BufData) (now : Int) (s' : LoopState),
        processVideo cfg s (.buf b) now = .ok s' → b.isEos = true →
        s'.stopRequested = false) ∧
    (∀ (s : LoopState) (b : BufData) (s' : LoopState),
        processAudio s (.buf b) = .ok s' → b.isEos = true →
        s'.stopRequested = false) := by
  refine ⟨?_, ?_, ?_⟩
  · intro cfg s tr
    induction tr generalizing s with
    | nil =>
        intro s' hr
        simp only [runLoop] at hr
        exact RunResult.noConfusion hr
    | cons it rest ih =>
        intro s' hr
        simp only [runLoop] at hr
        split at hr
        · injection hr with hr
          subst hr
          left
          assumption
        · split at hr
          · rename_i hd
            right
            simp only [List.any_cons, Bool.or_eq_true, decide_eq_true_eq]
            exact Or.inl hd
          · split at hr
            · exact RunResult.noConfusion hr
            · rename_i s2 heq
              rcases ih s2 s' hr with h | h
              · left; exact h
              · right
                simp only [List.any_cons, Bool.or_eq_true]
                exact Or.inr h
  · intro cfg s b now s' h hEos
    simp only [processVideo, finishVideoBuf, hEos, if_true] at h
    split_ifs at h <;> first
      | exact Except.noConfusion h
      | (injection h with h; subst h; rfl)
  · intro s b s' h hEos
    simp only [processAudio, finishAudioBuf, hEos, if_true] at h
    split_ifs at h <;> first
      | exact Except.noConfusion h
      | (injection h with h; subst h; rfl)

/-- C6 witness: the head-check characterization at a concrete run that
finishes through the deadline. -/
theorem finished_only_by_stop_or_deadline_witness :
    initState.stopRequested = true ∨
      [iterDead].any (fun it => decide (cfgVid.endWhenNsec < it.headNowNsec)) = true :=
  finished_only_by_stop_or_deadline.1 cfgVid initState [iterDead] initState (by decide)

/-- C7 counterexample: a second video format change in a video-only
session does not abort the pipeline: the window completes normally with a
second track registered and `muxer->start()` called a second time. -/
theorem c7_counterexample :
    (resultState (runEncoder cfgVid trC7)).map
      (fun s => (s.tracksAdded, s.startCount)) = some (2, 2) := by decide

/-- C7 (amended): a data buffer arriving before its stream's track is
registered is fatal on both streams (the `CHECK` aborts the session); but
a second format change on a stream is not fatal: it is absorbed by
registering a further track (and, past the threshold, calling `start()`
again). -/
theorem protocol_violation_handling :
    (∀ (cfg : Cfg) (s : LoopState) (b : BufData) (now : Int),
        b.isConfig = false → b.size ≠ 0 → s.videoTrackIdx = -1 →
        processVideo cfg s (.buf b) now = .error .assertFailed) ∧
    (∀ (s : LoopState) (b : BufData),
        b.isConfig = false → b.size ≠ 0 → s.audioTrackIdx = -1 →
        processAudio s (.buf b) = .error .assertFailed) ∧
    (∀ (cfg : Cfg) (s : LoopState) (now : Int), s.videoTrackIdx ≠ -1 →
        ∃ s', processVideo cfg s (.fmt true) now = .ok s' ∧
          s'.tracksAdded = s.tracksAdded + 1) := by
  refine ⟨?_, ?_, ?_⟩
  · intro cfg s b now hcf hsz hidx
    simp [processVideo, hcf, hsz, hidx]
  · intro s b hcf hsz hidx
    simp [processAudio, hcf, hsz, hidx]
  · intro cfg s now _
    by_cases hth : expectedTracks cfg ≤ s.tracksAdded + 1
    · have hp : processVideo cfg s (.fmt true) now =
          .ok { s with videoTrackIdx := (s.nextTrack : Int), nextTrack := s.nextTrack + 1, tracksAdded := s.tracksAdded + 1, startCount := s.startCount + 1 } := by
        simp [processVideo, hth]
      exact ⟨_, hp, rfl⟩
    · have hp : processVideo cfg s (.fmt true) now =
          .ok { s with videoTrackIdx := (s.nextTrack : Int), nextTrack := s.nextTrack + 1, tracksAdded := s.tracksAdded + 1 } := by
        simp [processVideo, hth]
      exact ⟨_, hp, rfl⟩

/-- C7 witness: the data-before-registration abort at a concrete state. -/
theorem protocol_violation_handling_witness :
    processVideo cfgVid initState (.buf (dataBuf 9)) 0 = .error .assertFailed :=
  protocol_violation_handling.1 cfgVid initState (dataBuf 9) 0 rfl (by decide) rfl

/-- C8: no output buffer flagged codec-config is ever passed to
`writeSampleData`, on either the video or the audio path, for any
sequence of encoder outputs. -/
theorem no_config_buffer_written (cfg : Cfg) (tr : List IterIn)
    (s : LoopState) (w : WriteRec)
    (hr : resultState (runEncoder cfg tr) = some s) (hw : w ∈ s.writes) :
    w.isConfig = false :=
  ((runLoop_inv cfg tr initState s (initState_inv cfg) hr).2.2.1 w hw).2

/-- C8 witness at the write of the concrete run `trV`. -/
theorem no_config_buffer_written_witness : wV.isConfig = false :=
  no_config_buffer_written cfgVid trV sV wV (by decide) (by decide)

/-- C9: a successfully forwarded video data sample carries exactly
`videoWritePts`: when the reported timestamp is zero this is the monotonic
clock reading at that point -- non-zero and strictly past the session
start whenever the clock reading is -- and otherwise it is the reported
timestamp unchanged. -/
theorem video_zero_pts_substitution (cfg : Cfg) (s : LoopState)
    (b : BufData) (now : Int) (s' : LoopState) (hcf : b.isConfig = false)
    (hsz : b.size ≠ 0) (h : processVideo cfg s (.buf b) now = .ok s') :
    s'.writes.map (fun w => w.pts) =
      s.writes.map (fun w => w.pts) ++ [videoWritePts b now] ∧
    (b.pts ≠ 0 → videoWritePts b now = b.pts) ∧
    (b.pts = 0 → now ≠ 0 → cfg.startWhenNsec / 1000 < now →
      videoWritePts b now ≠ 0 ∧ cfg.startWhenNsec / 1000 < videoWritePts b now) := by
  refine ⟨processVideo_data_ok hcf hsz h, ?_, ?_⟩
  · intro h0
    unfold videoWritePts
    rw [if_neg h0]
  · intro h0 hnz hlt
    unfold videoWritePts
    rw [if_pos h0]
    exact ⟨hnz, hlt⟩

/-- C9 witness: the substitution at a concrete zero-timestamp buffer and
clock reading 77. -/
theorem video_zero_pts_substitution_witness :
    videoWritePts zeroPtsBuf 77 ≠ 0 ∧
      cfgVid.startWhenNsec / 1000 < videoWritePts zeroPtsBuf 77 :=
  (video_zero_pts_substitution cfgVid sV zeroPtsBuf 77 sV77 rfl (by decide)
    (by rfl)).2.2 rfl (by decide) (by decide)

/-- C10: in a non-aborting iteration, every buffer dequeued with
`NO_ERROR` from either encoder is released back to that encoder within
that same iteration -- including codec-config buffers and zero-sized
end-of-stream buffers, which are not forwarded to the muxer. -/
theorem buffers_released_each_iteration (cfg : Cfg) (s : LoopState)
    (it : IterIn) (s' : LoopState) (b : BufData)
    (hok : stepIter cfg s it = .ok s') :
    (it.videoEvt = .buf b → s'.vidReleases = s.vidReleases ++ [b.idx]) ∧
    (cfg.recordAudio = true → it.audioEvt = .buf b →
      s'.audReleases = s.audReleases ++ [b.idx]) := by
  have h1 : (match processVideo cfg { s with stopRequested := s.stopRequested || it.sigMid }
        it.videoEvt it.vidNowUsec with
      | Except.error e => (Except.error e : Except PipeErr LoopState)
      | Except.ok s2 =>
          if cfg.recordAudio = true then processAudio s2 it.audioEvt
          else Except.ok s2) = Except.ok s' := hok
  rcases hpv : processVideo cfg { s with stopRequested := s.stopRequested || it.sigMid }
      it.videoEvt it.vidNowUsec with e | s2
  · rw [hpv] at h1
    exact Except.noConfusion
      (show (Except.error e : Except PipeErr LoopState) = Except.ok s' from h1)
  · rw [hpv] at h1
    have h2 : (if cfg.recordAudio = true then processAudio s2 it.audioEvt
        else Except.ok s2) = Except.ok s' := h1
    constructor
    · intro hv
      rw [hv] at hpv
      have hrel : s2.vidReleases = s.vidReleases ++ [b.idx] :=
        (processVideo_buf_ok hpv).2.2.2.2.2.2.2
      cases hra : cfg.recordAudio
      · rw [hra] at h2
        simp only [Bool.false_eq_true, if_false] at h2
        injection h2 with h2
        subst h2
        exact hrel
      · rw [hra] at h2
        simp only [if_true] at h2
        rw [(processAudio_ok_vid h2).2]
        exact hrel
    · intro hra hav
      rw [hra] at h2
      simp only [if_true] at h2
      rw [hav] at h2
      have hrel : s'.audReleases = s2.audReleases ++ [b.idx] :=
        (processAudio_buf_ok h2).2.2.2.2.2.2
      have hva : s2.audReleases = s.audReleases :=
        (processVideo_ok_aud hpv).2
      rw [hrel, hva]

/-- C10 witness: the video release at the concrete iteration `iterBuf5`
from the registered state `sV`. -/
theorem buffers_released_each_iteration_witness :
    sV5.vidReleases = sV.vidReleases ++ [(dataBuf 5).idx] :=
  (buffers_released_each_iteration cfgVid sV iterBuf5 sV5 (dataBuf 5)
    (by rfl)).1 rfl

end Screenrecord
